import Mathlib

/-!
Verification of the transaction/scheduler core of the tile38 fork.

This file is a shallow embedding, in Lean 4, of the parts of the source
tree that the specification talks about:

* `internal/txn/txn.go`    — the transaction status word (`Status`);
* `internal/txn/scheduler.go` — the read/write/scan scheduler coordinator;
* `internal/server/follow.go` — the script bridge (`luaTile38Call`,
  `luaTile38AtomicRO`, `luaTile38Iterate`, `ConvertToRESP`);
* `internal/server/statsarray.go` — the `statsArray` numeric helper.

Modelling conventions, used throughout:

* Go `int64`/`uint64` values are modelled as `Int`/`Nat`; wrap-around of
  `uint64` arithmetic is written explicitly with `% 2^64`; Go integer
  division (which truncates toward zero) is written `Int.tdiv`.
* Wall-clock instants (`time.Time`) are modelled by their `UnixNano`
  value as a `Nat`, with `0` standing for the zero `time.Time`
  (`IsZero`); real deadlines are large positive nanosecond counts, and
  the code treats a stored deadline of `0` as "unset", so this
  identification is faithful for every reachable value.
* `float64` arithmetic is idealised as exact rational arithmetic, except
  where a claim turns on IEEE behaviour at a zero divisor: there the
  extended type `F` (finite / +Inf / -Inf / NaN) is used and division by
  zero produces a signed infinity exactly as in Go.  The library
  routines `math.Erf` and `math.Sqrt` are taken as parameters
  (`erfQ`, `sqrtQ : ℚ → ℚ`): a Go float routine is a function on the
  (rational) representable values, and no theorem below depends on its
  finite values beyond the exact identities `Erf(+Inf) = 1`,
  `Erf(-Inf) = -1` which are part of its contract.
* The stateful Go methods are modelled in state-passing style: a method
  that may mutate its receiver returns the updated receiver next to its
  result.
-/

namespace Tile38

/-! ## `internal/txn/txn.go` — the transaction status word

Source layout (`txn.go` lines 8-21): `Status.status` is an `int64`
packing a deadline (bits 3..63, i.e. the deadline masked with `^0x7`),
a "signal interrupted" bit (`0x4`) and a two-bit error code (`0x3`).
On a `Nat` model of the (always non-negative) status word these masks
are arithmetic: `status & 0x3 = status % 4`, `status & 0x4` is bit 2,
and `status & ^0x7 = status - status % 8`.

The numeric values of the error-code constants are not part of the
sources provided (the txn package's error/constant file is absent); only
`errCodeMask = 0x3` and the uses in `txn.go` constrain them.  Modelled
from the spec: `errCode` is one of {none, deadline-exceeded,
interrupted, closed}, none being `0` (the code tests `errCode != 0`),
and the three non-none codes are distinct values in {1, 2, 3}.  No
theorem below depends on which non-zero value is which. -/

/-- The three error kinds a `Status` can report (`ClosedError`,
`InterruptedError`, `DeadlineError` in the txn package). -/
inductive TxnErr where
  | closed
  | interrupted
  | deadline
deriving DecidableEq, Repr

/-- Modelled from the spec: numeric value of the deadline error code. -/
def errCodeDeadline : Nat := 1

/-- Modelled from the spec: numeric value of the interrupted error code. -/
def errCodeInterrupted : Nat := 2

/-- Modelled from the spec: numeric value of the closed error code. -/
def errCodeClosed : Nat := 3

/-- The scan part of a status (`scanStatus` in `txn.go`).  The Go struct
also holds `interrupted *uint32` (a pointer to the scheduler's shared
flag) and the `onRetry` callback; in the pure model the flag's current
value is passed to `updateIfNeeded` as an argument, and `Retry` returns
the elapsed duration it hands to `onRetry`. -/
structure ScanStatus where
  startTime : Nat
deriving DecidableEq, Repr

/-- Model of `txn.Status`: the packed status word plus the optional scan state. -/
structure Status where
  status : Nat
  scanStatus : Option ScanStatus
deriving DecidableEq, Repr

/-- Model of `ts.status & errCodeMask`. -/
def Status.errCode (ts : Status) : Nat := ts.status % 4

/-- Model of `ts.status & deadlineMask` (the stored deadline, `0` = unset). -/
def Status.deadline (ts : Status) : Nat := ts.status - ts.status % 8

/-- Model of `Status.updateIfNeeded` (`txn.go` lines 78-103).  `now` is the
current wall clock (`time.Now().UnixNano()`), `interruptedFlag` the
current value of the scheduler's shared interrupt flag. -/
def updateIfNeeded (ts : Status) (now : Nat) (interruptedFlag : Bool) : Status :=
  if ts.errCode ≠ 0 then
    ts
  else if ts.deadline ≠ 0 ∧ now ≥ ts.deadline then
    { ts with status := ts.status + errCodeDeadline }
  else if ts.scanStatus.isSome ∧ interruptedFlag then
    { ts with status := ts.deadline + errCodeInterrupted + 4 }
  else
    ts

/-- Model of `Status.err` (`txn.go` lines 105-116). -/
def Status.err (ts : Status) : Option TxnErr :=
  match ts.errCode with
  | 1 => some .deadline
  | 2 => some .interrupted
  | 3 => some .closed
  | _ => none

/-- Model of `Status.IsAborted` on a non-nil receiver: run the lazy update, then
report whether an error is set.  Returns the updated status word next to
the boolean. -/
def isAbortedCore (ts : Status) (now : Nat) (interruptedFlag : Bool) : Status × Bool :=
  let ts' := updateIfNeeded ts now interruptedFlag
  (ts', ts'.err.isSome)

/-- Model of `Status.Error` on a non-nil receiver. -/
def errorCore (ts : Status) (now : Nat) (interruptedFlag : Bool) : Status × Option TxnErr :=
  let ts' := updateIfNeeded ts now interruptedFlag
  (ts', ts'.err)

/-- Model of `Status.IsAborted` (`txn.go` lines 23-29); a nil receiver returns
`false` without touching any field. -/
def isAborted (ts? : Option Status) (now : Nat) (interruptedFlag : Bool) :
    Option Status × Bool :=
  match ts? with
  | none => (none, false)
  | some ts =>
    let (ts', b) := isAbortedCore ts now interruptedFlag
    (some ts', b)

/-- Model of `Status.Error` (`txn.go` lines 31-37); a nil receiver returns `nil`. -/
def errorOf (ts? : Option Status) (now : Nat) (interruptedFlag : Bool) :
    Option Status × Option TxnErr :=
  match ts? with
  | none => (none, none)
  | some ts =>
    let (ts', e) := errorCore ts now interruptedFlag
    (some ts', e)

/-- Model of `Status.GetDeadlineTime` (`txn.go` lines 39-48); a nil receiver, or a
zero stored deadline, yields the zero time (modelled as `0`). -/
def getDeadlineTime (ts? : Option Status) : Nat :=
  match ts? with
  | none => 0
  | some ts => ts.deadline

/-- Model of `Status.WithDeadline` (`txn.go` lines 50-70).  `t` is the new
deadline's `UnixNano` (`0` = zero time).  Note the source stores
`t.UnixNano() & deadlineMask`, i.e. `t` truncated to a multiple of 8 ns,
and keeps the low three bits (`errCode` and the signal bit) of the
original word. -/
def withDeadline (ts? : Option Status) (t : Nat) : Option Status :=
  if t = 0 then
    ts?
  else
    match ts? with
    | none => some ⟨t - t % 8, none⟩
    | some ts =>
      if ts.deadline ≠ 0 ∧ t > ts.deadline then
        some ts
      else
        some ⟨(t - t % 8) + ts.status % 8, ts.scanStatus⟩

/-- Model of `Status.Retry` (`txn.go` lines 72-76).  The result is the updated
status together with the elapsed duration passed to `onRetry`
(`time.Since(startTime)`, computed before anything is reset).  A nil
`scanStatus` would be a nil-pointer dereference in Go, modelled as
`none`. -/
def retry (ts : Status) (now : Nat) : Option (Status × Int) :=
  match ts.scanStatus with
  | none => none
  | some ss =>
    some ({ status := ts.status - ts.status % 4, scanStatus := some ⟨now⟩ },
      (now : Int) - (ss.startTime : Int))

/-- Unfolding equation: `WithDeadline` on a nil receiver. -/
theorem withDeadline_none_eq (t : Nat) :
    withDeadline none t = if t = 0 then none else some ⟨t - t % 8, none⟩ := by
  unfold withDeadline
  split <;> rfl

/-- Unfolding equation: `WithDeadline` on a non-nil receiver. -/
theorem withDeadline_some_eq (ts : Status) (t : Nat) :
    withDeadline (some ts) t =
      if t = 0 then some ts
      else if ts.deadline ≠ 0 ∧ t > ts.deadline then some ts
      else some ⟨(t - t % 8) + ts.status % 8, ts.scanStatus⟩ := by
  unfold withDeadline
  split
  · rfl
  · rfl

/-! ### Claims C4, C5, C10 -/

/-- C4: once `errCode` is non-none, every subsequent `IsAborted`/`Error`
call returns that same error with the status word unchanged, without
consulting the clock or the interrupt flag (the result is literally
independent of both arguments); and `Retry` resets `errCode` to none,
sets `startTime` to the current time, and reports to `onRetry` the time
elapsed since the previous `startTime`. -/
theorem status_error_sticky_until_retry (ts : Status) (now : Nat)
    (interruptedFlag : Bool) (ss : ScanStatus) :
    (ts.errCode ≠ 0 →
      updateIfNeeded ts now interruptedFlag = ts ∧
      errorCore ts now interruptedFlag = (ts, ts.err) ∧
      isAbortedCore ts now interruptedFlag = (ts, true)) ∧
    (ts.scanStatus = some ss →
      retry ts now =
        some ({ status := ts.status - ts.status % 4, scanStatus := some ⟨now⟩ },
          (now : Int) - (ss.startTime : Int)) ∧
      (ts.status - ts.status % 4) % 4 = 0 ∧
      (ts.status - ts.status % 4) - (ts.status - ts.status % 4) % 8 = ts.deadline ∧
      (ts.status - ts.status % 4) / 4 % 2 = ts.status / 4 % 2) := by
  constructor
  · intro h
    have hu : updateIfNeeded ts now interruptedFlag = ts := by
      unfold updateIfNeeded
      simp [h]
    refine ⟨hu, ?_, ?_⟩
    · unfold errorCore
      rw [hu]
    · unfold isAbortedCore
      rw [hu]
      have hs : ts.err.isSome = true := by
        unfold Status.err
        have hc : ts.errCode = ts.status % 4 := rfl
        unfold Status.errCode at h
        rcases (show ts.status % 4 = 1 ∨ ts.status % 4 = 2 ∨ ts.status % 4 = 3 by omega)
          with h6 | h6 | h6 <;> (rw [hc, h6]; rfl)
      show (ts, ts.err.isSome) = (ts, true)
      rw [hs]
  · intro h
    refine ⟨?_, by omega, ?_, by omega⟩
    · unfold retry
      rw [h]
    · unfold Status.deadline
      omega

/-- Witness for C4 at a concrete status: `status = 2` (interrupted set),
scan state with `startTime = 5`, clock at `7`. -/
theorem status_error_sticky_until_retry_witness :
    updateIfNeeded ⟨2, some ⟨5⟩⟩ 7 true = ⟨2, some ⟨5⟩⟩ ∧
    retry ⟨2, some ⟨5⟩⟩ 7 = some (⟨0, some ⟨7⟩⟩, 2) := by
  have h := status_error_sticky_until_retry ⟨2, some ⟨5⟩⟩ 7 true ⟨5⟩
  refine ⟨(h.1 (by decide)).1, ?_⟩
  rw [(h.2 rfl).1]
  decide

/-- The stored deadline truncated: `t.UnixNano() & deadlineMask`. -/
def trunc8 (t : Nat) : Nat := t - t % 8

/-- C5 (amended): for a non-nil status `s` and non-zero `t`,
`s.WithDeadline(t)` yields a view that shares `s`'s `scanStatus` and its
low status bits, and whose stored deadline is the earlier of `s`'s
deadline and `t` truncated down to the encoding's 8 ns granularity
(just the truncated `t` when `s` has no deadline — in particular a `t`
whose truncation is `0` leaves the view with no deadline at all).  The
model is pure: the Go code never mutates `s`, it returns `s` itself or a
freshly allocated `Status`. -/
theorem withDeadline_tightens (ts : Status) (t : Nat) (ht : t ≠ 0) :
    ∃ v, withDeadline (some ts) t = some v ∧
      v.scanStatus = ts.scanStatus ∧
      v.status % 8 = ts.status % 8 ∧
      v.deadline = (if ts.deadline = 0 then trunc8 t else min ts.deadline (trunc8 t)) := by
  rw [withDeadline_some_eq, if_neg ht]
  by_cases hd : ts.deadline ≠ 0 ∧ t > ts.deadline
  · refine ⟨ts, by rw [if_pos hd], rfl, rfl, ?_⟩
    rw [if_neg hd.1]
    have h8 : ts.deadline = ts.status - ts.status % 8 := rfl
    unfold trunc8
    omega
  · refine ⟨⟨(t - t % 8) + ts.status % 8, ts.scanStatus⟩, by rw [if_neg hd], rfl, ?_, ?_⟩
    · show ((t - t % 8) + ts.status % 8) % 8 = ts.status % 8
      omega
    · show ((t - t % 8) + ts.status % 8) - ((t - t % 8) + ts.status % 8) % 8 = _
      have h8 : ts.deadline = ts.status - ts.status % 8 := rfl
      unfold trunc8
      by_cases h0 : ts.deadline = 0
      · rw [if_pos h0]
        omega
      · rw [if_neg h0]
        omega

/-- Witness for C5 at `status = 16` (deadline 16), `t = 40`: the view
keeps scan state `none`, and its deadline is `min 16 40 = 16`. -/
theorem withDeadline_tightens_witness :
    (40 : Nat) ≠ 0 ∧ ∃ v, withDeadline (some ⟨16, none⟩) 40 = some v ∧
      v.scanStatus = none ∧ v.status % 8 = 16 % 8 ∧ v.deadline = 16 := by
  refine ⟨by decide, ?_⟩
  obtain ⟨v, h1, h2, h3, h4⟩ := withDeadline_tightens ⟨16, none⟩ 40 (by decide)
  exact ⟨v, h1, h2, h3, by simpa using h4⟩

/-- C5 counterexample to the claim as stated: with an existing deadline
of 16 ns and `t = 9` ns the claim demands the tighter deadline
`min 16 9 = 9`, but the code stores `9 & ^0x7 = 8`. -/
theorem withDeadline_counterexample :
    withDeadline (some ⟨16, none⟩) 9 = some ⟨8, none⟩ ∧
    Status.deadline ⟨8, none⟩ = 8 ∧ min 16 9 = 9 ∧ (8 : Nat) ≠ 9 := by
  refine ⟨?_, by decide, by decide, by decide⟩
  rw [withDeadline_some_eq]
  norm_num [Status.deadline]

/-- C10 (amended): the read accessors are total on a nil receiver — a
nil `*Status` yields `false` from `IsAborted`, `nil` from `Error`, the
zero time from `GetDeadlineTime` — and `WithDeadline(t)` with non-zero
`t` on a nil status builds a fresh status with no scan state, no error
code, no signal bit, and `t` truncated to the encoding's 8 ns
granularity as its only content.  None of these touch a field of the
nil receiver (each is defined on the `none` case directly). -/
theorem nil_status_accessors (now : Nat) (interruptedFlag : Bool) (t : Nat)
    (ht : t ≠ 0) :
    isAborted none now interruptedFlag = (none, false) ∧
    errorOf none now interruptedFlag = (none, none) ∧
    getDeadlineTime none = 0 ∧
    withDeadline none t = some ⟨trunc8 t, none⟩ ∧
    Status.errCode ⟨trunc8 t, none⟩ = 0 ∧
    Status.deadline ⟨trunc8 t, none⟩ = trunc8 t := by
  refine ⟨rfl, rfl, rfl, ?_, ?_, ?_⟩
  · rw [withDeadline_none_eq, if_neg ht]
    rfl
  · show trunc8 t % 4 = 0
    unfold trunc8
    omega
  · show trunc8 t - trunc8 t % 8 = trunc8 t
    unfold trunc8
    omega

/-- Witness for C10 at `t = 24`, clock 3, flag `true`. -/
theorem nil_status_accessors_witness :
    (24 : Nat) ≠ 0 ∧ withDeadline none 24 = some ⟨24, none⟩ ∧
    isAborted none 3 true = (none, false) := by
  have h := nil_status_accessors 3 true 24 (by decide)
  exact ⟨by decide, by simpa [trunc8] using h.2.2.2.1, h.1⟩

/-- C10 counterexample to the claim as stated: `WithDeadline` on a nil
status with `t = 9` ns does not carry "that deadline": the fresh status
stores the truncated value `8`, and `GetDeadlineTime` reports `8 ≠ 9`. -/
theorem nil_withDeadline_counterexample :
    getDeadlineTime (withDeadline none 9) = 8 ∧ (8 : Nat) ≠ 9 := by
  constructor
  · rw [withDeadline_none_eq]
    norm_num [getDeadlineTime, Status.deadline]
  · decide

/-! ## `internal/txn/scheduler.go` — the scheduler coordinator

`Scheduler.schedule` is a single goroutine owning all scheduling state;
every grant (a send on `readPermit` / `writePermit`) and every
completion report (a receive on `opComplete`) is a rendezvous on an
unbuffered channel with that goroutine, so the coordinator's execution
is a totally ordered sequence of such events.  The labelled transition
system below mirrors the `schedule` loop (`scheduler.go` lines 72-245),
one phase per program point:

* `readPhase`, `prepWrite` (`prepareWrite`), `drain` (`waitReadsDone`),
  `wIdle` (the `write:` loop's select), `prepRead` (`prepareRead`) and
  `halted` (the trailing completion-drain loop) are the code's labelled
  loops;
* `wGrant`/`wRun` are the two program points inside
  `s.writePermit <- void; <-s.opComplete` for a write granted from the
  read phase or the write loop, and `prGrant`/`prRun` the same pair for
  a write drained inside `prepareRead`; in these states the coordinator
  executes straight-line code, so no other event can interleave — in
  particular, between granting a write and receiving its completion the
  coordinator can take part in no grant at all.

Events: `grantRead` is the composite receive-request-then-send-permit
body of a `readRequests` case (the read's or scan's lifetime starts at
the permit send and `inflight` is incremented); `complete t` is a
receive on `opComplete` carrying the reported runtime (`-1` = finished
normally, `≥ 0` = aborted after being interrupted); `reqWrite` /
`reqRead` are receives on `writeRequests` / `readRequests` whose grant
is deferred; `timer` is an expiry of the phase timer; `shutdown` is the
`done` channel firing.  A `complete` is only possible while some
granted-and-unfinished operation exists to send it, which is exactly
`inflight > 0` outside `wRun`/`prRun` (in `wRun`/`prRun` the sender is
the single granted writer).  An interrupted scan reports completion of
its current permit through `opInterrupted` and re-enters as a fresh
`readRequests` requester (`scheduler.go` lines 266-270), so each
retried leg holds its own permit; a leg's lifetime runs from its grant
event to the `complete` event the coordinator receives for it. -/

/-- Program points of the `schedule` coordinator. -/
inductive Phase where
  | readPhase
  | prepWrite
  | drain
  | wGrant
  | wRun
  | wIdle
  | prepRead
  | prGrant
  | prRun
  | halted
deriving DecidableEq, Repr

/-- Coordinator state: program point plus the `inflight` counter. -/
structure SchedState where
  ph : Phase
  inflight : Nat
deriving DecidableEq, Repr

/-- Events of the coordinator (see the section comment). -/
inductive SchedEv where
  | grantRead
  | complete (t : Int)
  | reqWrite
  | grantWrite
  | reqRead
  | timer
  | shutdown
deriving DecidableEq, Repr

/-- One coordinator step.  `none` means the event cannot occur in that
state (the corresponding select has no such case, or no sender exists).
A `reqWrite` in the read phase with `inflight = 0` runs the empty
prepare-write and drain phases inline (their loop conditions hold
immediately) and proceeds directly to granting the write, exactly as
the code falls through `prepareWrite` and `waitReadsDone`. -/
def schedStep : SchedState → SchedEv → Option SchedState
  | ⟨.readPhase, n⟩, .grantRead => some ⟨.readPhase, n + 1⟩
  | ⟨.readPhase, n + 1⟩, .complete _ => some ⟨.readPhase, n⟩
  | ⟨.readPhase, 0⟩, .reqWrite => some ⟨.wGrant, 0⟩
  | ⟨.readPhase, n + 1⟩, .reqWrite => some ⟨.prepWrite, n + 1⟩
  | ⟨.readPhase, n⟩, .shutdown => some ⟨.halted, n⟩
  | ⟨.prepWrite, n⟩, .grantRead => some ⟨.prepWrite, n + 1⟩
  | ⟨.prepWrite, 1⟩, .complete _ => some ⟨.wGrant, 0⟩
  | ⟨.prepWrite, n + 2⟩, .complete _ => some ⟨.prepWrite, n + 1⟩
  | ⟨.prepWrite, n⟩, .timer => some ⟨.drain, n⟩
  | ⟨.prepWrite, n⟩, .shutdown => some ⟨.halted, n⟩
  | ⟨.drain, 1⟩, .complete _ => some ⟨.wGrant, 0⟩
  | ⟨.drain, n + 2⟩, .complete _ => some ⟨.drain, n + 1⟩
  | ⟨.drain, n⟩, .shutdown => some ⟨.halted, n⟩
  | ⟨.wGrant, n⟩, .grantWrite => some ⟨.wRun, n⟩
  | ⟨.wRun, n⟩, .complete _ => some ⟨.wIdle, n⟩
  | ⟨.wIdle, n⟩, .reqWrite => some ⟨.wGrant, n⟩
  | ⟨.wIdle, n⟩, .reqRead => some ⟨.prepRead, n⟩
  | ⟨.wIdle, n⟩, .shutdown => some ⟨.halted, n⟩
  | ⟨.prepRead, n⟩, .reqWrite => some ⟨.prGrant, n⟩
  | ⟨.prepRead, n⟩, .grantRead => some ⟨.readPhase, n + 1⟩
  | ⟨.prGrant, n⟩, .grantWrite => some ⟨.prRun, n⟩
  | ⟨.prRun, n⟩, .complete _ => some ⟨.prepRead, n⟩
  | ⟨.halted, n + 1⟩, .complete _ => some ⟨.halted, n⟩
  | _, _ => none

/-- The coordinator starts in the read phase with nothing in flight. -/
def schedInit : SchedState := ⟨.readPhase, 0⟩

/-- Run a sequence of events. -/
def schedRun : SchedState → List SchedEv → Option SchedState
  | s, [] => some s
  | s, e :: es =>
    match schedStep s e with
    | none => none
    | some s' => schedRun s' es

/-- Holds (as `true`) exactly while a granted write has not yet reported
completion: the coordinator is blocked in `<-s.opComplete` right after
`s.writePermit <- void`. -/
def writeHolding : Phase → Bool
  | .wRun => true
  | .prRun => true
  | _ => false

/-- Phases in which the code guarantees `inflight = 0`: every path into
the write side first waits out all granted reads and scans. -/
def zeroInflightPhase : Phase → Bool
  | .wGrant => true
  | .wRun => true
  | .wIdle => true
  | .prepRead => true
  | .prGrant => true
  | .prRun => true
  | _ => false

/-- The inductive invariant of the coordinator. -/
def SchedInv (s : SchedState) : Prop :=
  zeroInflightPhase s.ph = true → s.inflight = 0

theorem schedStep_preserves_inv {s s' : SchedState} {e : SchedEv}
    (hs : SchedInv s) (h : schedStep s e = some s') : SchedInv s' := by
  obtain ⟨ph, n⟩ := s
  unfold SchedInv at hs ⊢
  cases ph <;> cases e <;> rcases n with _ | _ | n <;>
    simp only [schedStep] at h <;>
    (try simp at h) <;> (try subst h) <;> simp_all [zeroInflightPhase]

theorem schedRun_inv {tr : List SchedEv} {s s' : SchedState}
    (hs : SchedInv s) (h : schedRun s tr = some s') : SchedInv s' := by
  induction tr generalizing s with
  | nil =>
    unfold schedRun at h
    injection h with h
    subst h
    exact hs
  | cons e es ih =>
    unfold schedRun at h
    rcases h2 : schedStep s e with - | s2
    · rw [h2] at h
      exact absurd h (by simp)
    · rw [h2] at h
      exact ih (schedStep_preserves_inv hs h2) h

/-! ### Claim C1 -/

/-- C1: write exclusivity of the scheduler.  For every reachable
coordinator state:

1. while a granted write has not reported completion (`wRun`/`prRun`),
   no read or scan permit is outstanding (`inflight = 0`) — so no read
   or scan leg's lifetime overlaps a write's lifetime;
2. while a granted write has not reported completion, the only event
   the coordinator can take is that write's completion report — writes
   are granted one at a time and each blocks the coordinator until its
   completion is reported, so two write lifetimes can never overlap;
3. a write permit can only ever be granted from a state with
   `inflight = 0` (with no write outstanding, by 2).

Read/scan lifetimes are the spans during which `inflight` counts them:
a leg is granted by a `grantRead` event (`inflight + 1`) and ends at a
`complete` event (`inflight - 1`); an interrupted scan's resumed leg is
a fresh request and a fresh grant. -/
theorem scheduler_write_exclusivity (tr : List SchedEv) (st : SchedState)
    (h : schedRun schedInit tr = some st) :
    (writeHolding st.ph = true → st.inflight = 0) ∧
    (writeHolding st.ph = true →
      ∀ e st', schedStep st e = some st' → ∃ t, e = .complete t) ∧
    (∀ st', schedStep st .grantWrite = some st' →
      st.inflight = 0 ∧ (st.ph = .wGrant ∨ st.ph = .prGrant)) := by
  have hinv : SchedInv st := schedRun_inv (by intro h2; rfl) h
  obtain ⟨ph, n⟩ := st
  refine ⟨?_, ?_, ?_⟩
  · intro hw
    cases ph <;> simp_all [writeHolding, SchedInv, zeroInflightPhase]
  · intro hw e st' hstep
    cases ph <;> simp_all [writeHolding] <;> cases e <;>
      simp_all [schedStep]
  · intro st' hstep
    cases ph
    case wGrant => exact ⟨hinv rfl, Or.inl rfl⟩
    case prGrant => exact ⟨hinv rfl, Or.inr rfl⟩
    all_goals rcases n with _ | _ | n <;> simp [schedStep] at hstep

/-- Witness for C1: the trace "a write arrives in an idle read phase
and is granted" reaches the write-running state with zero inflight
reads. -/
theorem scheduler_write_exclusivity_witness :
    schedRun schedInit [.reqWrite, .grantWrite] = some ⟨.wRun, 0⟩ ∧
    (⟨.wRun, 0⟩ : SchedState).inflight = 0 := by
  have h := scheduler_write_exclusivity [.reqWrite, .grantWrite] ⟨.wRun, 0⟩ (by rfl)
  exact ⟨by rfl, h.1 rfl⟩

/-! ## `internal/txn/scheduler.go` lines 137-182 — write-delay adaptation

Between draining the in-flight readers and granting the pending write,
the coordinator folds the runtimes reported on `opComplete` during the
drain into `maxRuntime` (initially `-1`; `opDone` reports `-1`,
`opInterrupted` reports the interrupted leg's elapsed time, which is
non-negative), then adapts `writeDelay` and clamps it.  All values are
`time.Duration`, i.e. `int64` nanoseconds; Go's integer division
truncates toward zero (`Int.tdiv`). -/

/-- Nanoseconds in `1 * time.Millisecond`. -/
def oneMillisecond : Int := 1000000

/-- Nanoseconds in `1 * time.Minute`. -/
def oneMinute : Int := 60000000000

/-- The clamp to `[1 ms, 1 min]` (`scheduler.go` lines 170-174). -/
def clampWriteDelay (d : Int) : Int :=
  if d > oneMinute then oneMinute
  else if d < oneMillisecond then oneMillisecond
  else d

/-- The drain loop's `maxRuntime` accumulator (`scheduler.go` lines
137, 147-150): the fold of `if runtime > maxRuntime` over the reported
runtimes, seeded with `-1`. -/
def maxRuntimeOf (reports : List Int) : Int :=
  reports.foldl (fun acc r => if r > acc then r else acc) (-1)

/-- The write-delay adaptation exactly as coded (`scheduler.go` lines
161-174): double `maxRuntime` if it exceeds the current delay, shrink
to `writeDelay / 4 * 3` (truncating division first) if nothing was
interrupted, otherwise leave unchanged; then clamp. -/
def adaptWriteDelay (writeDelay : Int) (reports : List Int) : Int :=
  clampWriteDelay
    (if maxRuntimeOf reports > writeDelay then maxRuntimeOf reports * 2
     else if maxRuntimeOf reports = -1 then (Int.tdiv writeDelay 4) * 3
     else writeDelay)

/-- The runtimes of the operations that reported being interrupted
(a non-negative elapsed time; `-1` means "finished normally"). -/
def interruptedOf (reports : List Int) : List Int :=
  reports.filter (fun r => 0 ≤ r)

/-- The maximum elapsed time reported by an interrupted operation. -/
def maxInterruptedOf (reports : List Int) : Int :=
  (interruptedOf reports).foldl max (-1)

/-- The adaptation rule as the claim states it: if the maximum elapsed
time reported by an interrupted operation exceeds the delay the new
delay is twice that maximum, else if no operation reported being
interrupted the new delay is "three quarters of the current delay"
(`writeDelay * 3 / 4`, multiplication first), else unchanged; then
clamp. -/
def adaptWriteDelaySpecStated (writeDelay : Int) (reports : List Int) : Int :=
  clampWriteDelay
    (if interruptedOf reports ≠ [] ∧ maxInterruptedOf reports > writeDelay then
      2 * maxInterruptedOf reports
     else if interruptedOf reports = [] then Int.tdiv (writeDelay * 3) 4
     else writeDelay)

/-- The claim amended only where the counterexample forces it: the
no-interruption branch is `writeDelay / 4 * 3` with Go's truncating
division applied before the multiplication. -/
def adaptWriteDelaySpecAmended (writeDelay : Int) (reports : List Int) : Int :=
  clampWriteDelay
    (if interruptedOf reports ≠ [] ∧ maxInterruptedOf reports > writeDelay then
      2 * maxInterruptedOf reports
     else if interruptedOf reports = [] then (Int.tdiv writeDelay 4) * 3
     else writeDelay)

theorem maxRuntimeOf_eq_foldl_max (reports : List Int) :
    maxRuntimeOf reports = reports.foldl max (-1) := by
  unfold maxRuntimeOf
  congr 1
  funext acc r
  rw [max_def]
  split <;> split <;> omega

theorem foldl_max_filter : ∀ (reports : List Int) (a : Int),
    (∀ r ∈ reports, r = -1 ∨ 0 ≤ r) → -1 ≤ a →
    reports.foldl max a = (reports.filter (fun r => 0 ≤ r)).foldl max a := by
  intro reports
  induction reports with
  | nil => intro a _ _; rfl
  | cons r rs ih =>
    intro a hr ha
    have hr0 := hr r (by simp)
    have hrs : ∀ x ∈ rs, x = -1 ∨ 0 ≤ x := fun x hx => hr x (by simp [hx])
    rcases hr0 with h | h
    · subst h
      rw [List.foldl_cons, max_eq_left ha]
      rw [show List.filter (fun r => decide (0 ≤ r)) ((-1 : Int) :: rs) =
            List.filter (fun r => decide (0 ≤ r)) rs from by simp]
      exact ih a hrs ha
    · rw [List.foldl_cons,
        show List.filter (fun x => decide (0 ≤ x)) (r :: rs) =
          r :: List.filter (fun x => decide (0 ≤ x)) rs from by simp [h],
        List.foldl_cons]
      exact ih (max a r) hrs (by omega)

theorem le_foldl_max : ∀ (l : List Int) (a : Int), a ≤ l.foldl max a := by
  intro l
  induction l with
  | nil => intro a; exact le_refl a
  | cons r rs ih =>
    intro a
    rw [List.foldl_cons]
    exact le_trans (le_max_left a r) (ih (max a r))

theorem mem_le_foldl_max : ∀ (l : List Int) (a x : Int), x ∈ l → x ≤ l.foldl max a := by
  intro l
  induction l with
  | nil => intro a x hx; simp at hx
  | cons y ys ih =>
    intro a x hx
    rw [List.foldl_cons]
    rcases List.mem_cons.mp hx with h | h
    · subst h
      exact le_trans (le_max_right a x) (le_foldl_max ys (max a x))
    · exact ih (max a y) x h

/-! ### Claim C2 -/

/-- C2 (amended): the coded adaptation agrees everywhere with the
claimed rule once "three quarters of the current delay" is read as
`writeDelay / 4 * 3` with Go's truncating integer division (the code
divides first, so up to 3 ns are dropped before tripling).  The
hypothesis states the shape of the drain reports: `opDone` reports
`-1`, `opInterrupted` a non-negative elapsed time. -/
theorem adaptWriteDelay_matches_amended_spec (writeDelay : Int)
    (reports : List Int) (hr : ∀ r ∈ reports, r = -1 ∨ 0 ≤ r) :
    adaptWriteDelay writeDelay reports =
      adaptWriteDelaySpecAmended writeDelay reports := by
  unfold adaptWriteDelay adaptWriteDelaySpecAmended
  have hmi : maxRuntimeOf reports = maxInterruptedOf reports := by
    rw [maxRuntimeOf_eq_foldl_max,
      foldl_max_filter reports (-1) hr (le_refl _)]
    rfl
  rw [hmi]
  by_cases hemp : interruptedOf reports = []
  · have hm1 : maxInterruptedOf reports = -1 := by
      unfold maxInterruptedOf
      rw [hemp]
      rfl
    rw [hm1]
    by_cases hwd : (-1 : Int) > writeDelay
    · rw [if_pos hwd, if_neg (fun hc => hc.1 hemp), if_pos hemp]
      have h3 : Int.tdiv writeDelay 4 ≤ 0 := by
        have h4 : writeDelay = -(-writeDelay) := by omega
        rw [h4, Int.neg_tdiv]
        have h5 : 0 ≤ Int.tdiv (-writeDelay) 4 :=
          Int.tdiv_nonneg (by omega) (by omega)
        omega
      unfold clampWriteDelay oneMinute oneMillisecond
      rw [if_neg (show ¬ ((-1 : Int) * 2 > 60000000000) by omega),
        if_pos (show (-1 : Int) * 2 < 1000000 by omega),
        if_neg (show ¬ (Int.tdiv writeDelay 4 * 3 > 60000000000) by omega),
        if_pos (show Int.tdiv writeDelay 4 * 3 < 1000000 by omega)]
    · rw [if_neg hwd, if_pos (show (-1 : Int) = -1 from rfl),
        if_neg (fun hc => hc.1 hemp), if_pos hemp]
  · have hmax0 : 0 ≤ maxInterruptedOf reports := by
      obtain ⟨x, hx⟩ := List.exists_mem_of_ne_nil _ hemp
      have hx0 : 0 ≤ x := by
        have := List.of_mem_filter hx
        simpa using this
      exact le_trans hx0 (mem_le_foldl_max _ _ _ hx)
    by_cases hgt : maxInterruptedOf reports > writeDelay
    · rw [if_pos hgt, if_pos ⟨hemp, hgt⟩, mul_comm]
    · rw [if_neg hgt,
        if_neg (show ¬ (maxInterruptedOf reports = -1) by omega),
        if_neg (fun hc => hgt hc.2), if_neg hemp]

/-- Witness for C2 at `writeDelay = 8 ms`, reports `[-1, 2000000, -1]`
(one leg interrupted after 2 ms, two normal completions): both sides
leave the delay at 8 ms (2 ms does not exceed it). -/
theorem adaptWriteDelay_matches_amended_spec_witness :
    (∀ r ∈ ([-1, 2000000, -1] : List Int), r = -1 ∨ 0 ≤ r) ∧
    adaptWriteDelay 8000000 [-1, 2000000, -1] =
      adaptWriteDelaySpecAmended 8000000 [-1, 2000000, -1] ∧
    adaptWriteDelay 8000000 [-1, 2000000, -1] = 8000000 := by
  refine ⟨by decide, adaptWriteDelay_matches_amended_spec _ _ (by decide), by decide⟩

/-- C2 counterexample to the claim as stated: with `writeDelay =
2000002` ns and a drain in which the only completion reported `-1` (no
interruption), the code computes `2000002 / 4 * 3 = 1500000` ns, while
"three quarters of the current delay" (`2000002 * 3 / 4`) is `1500001`
ns; both lie inside the clamp range, so the results differ. -/
theorem adaptWriteDelay_claim_counterexample :
    adaptWriteDelay 2000002 [-1] = 1500000 ∧
    adaptWriteDelaySpecStated 2000002 [-1] = 1500001 ∧
    (1500000 : Int) ≠ 1500001 := by
  refine ⟨by decide, by decide, by decide⟩

/-! ## `internal/server/follow.go` lines 1388-1418 — the iterate retry loop

`Server.luaTile38Iterate` repeatedly calls `luaTile38IterateInner`
(lines 1420-1626), accumulating `skipScan`/`skipMatch` (both `uint64`),
calling `ts.Retry()` and re-entering whenever the inner scan reported
`txn.InterruptedError` and resumption is not disabled.

The inner call re-parses the fixed argument list (so `cursor`,
`limit.matched`, `limit.scanned`, `noresume`, `fence` are the same
every attempt — they are functions of the argument strings only), then
adjusts (`follow.go` lines 1454-1461):

    lfs.cursor += skipScan
    if lfs.limit.matched != 0 { lfs.limit.matched -= skipMatch }
    if lfs.limit.scanned != 0 { lfs.limit.scanned -= skipScan }

and runs the scan.  The deferred block (lines 1477-1488) reports
`scanStart = lfs.cursor`, `scanEnd = max(sc.numberIters, lfs.cursor)`,
`matchCount = sc.count`, and converts a panic into `err`.

The parsing and scanning internals (`cmdSearchArgs`, `newScanner`, the
collection iterators) are not part of the provided sources; each
attempt's observable outcome is therefore a parameter (`IterAttempt`),
universally quantified in the theorems. -/

/-- The constant 2^64, the modulus of Go's `uint64` arithmetic. -/
def U64 : Nat := 18446744073709551616

/-- Model of `uint64` addition. -/
def u64add (a b : Nat) : Nat := (a + b) % U64

/-- Model of `uint64` subtraction (two's-complement wrap-around). -/
def u64sub (a b : Nat) : Nat := (a % U64 + (U64 - b % U64)) % U64

/-- The attempt-independent data parsed from the iterate arguments:
`lfs.cursor`, `lfs.limit.matched`, `lfs.limit.scanned` (all `uint64`,
`0` meaning "no limit"), `lfs.noresume` and `lfs.fence`. -/
structure IterArgs where
  cursor : Nat
  limitMatched : Nat
  limitScanned : Nat
  noresume : Bool
  fence : Bool
deriving DecidableEq, Repr

/-- Errors observable from an inner scan attempt.  `interrupted` is
`txn.InterruptedError`; `errors.Is(err, txn.InterruptedError{})` is
modelled as equality with `.interrupted`. -/
inductive IterErr where
  | interrupted
  | deadline
  | other (msg : String)
deriving DecidableEq, Repr

/-- The outcome of one inner attempt, abstracting the store scan:

* `parseErr e` — `cmdSearchArgs`/`cmdScanArgs` failed (the code
  returns before `noresume` is assigned, with zero counters);
* `scanErr e` — `newScanner` failed (after `noresume` was assigned,
  before the counter-reporting defer was installed);
* `noCol` — the collection does not exist (explicit
  `return 0, 0, 0, false, nil`);
* `run numberIters count err` — the scan ran; `numberIters` is the
  scanner's total iteration counter, `count` its match counter, `err`
  the recovered panic if any (`none` when the scan finished). -/
inductive IterAttempt where
  | parseErr (e : IterErr)
  | scanErr (e : IterErr)
  | noCol
  | run (numberIters : Nat) (count : Nat) (err : Option IterErr)
deriving DecidableEq, Repr

/-- The cursor passed to the scan of an attempt entered with
accumulated skip `skipScan` (`lfs.cursor += skipScan`). -/
def adjCursor (args : IterArgs) (skipScan : Nat) : Nat :=
  u64add args.cursor skipScan

/-- The matched limit passed to the scan
(`if lfs.limit.matched != 0 { lfs.limit.matched -= skipMatch }`). -/
def adjLimitMatched (args : IterArgs) (skipMatch : Nat) : Nat :=
  if args.limitMatched = 0 then 0 else u64sub args.limitMatched skipMatch

/-- The scanned limit passed to the scan
(`if lfs.limit.scanned != 0 { lfs.limit.scanned -= skipScan }`). -/
def adjLimitScanned (args : IterArgs) (skipScan : Nat) : Nat :=
  if args.limitScanned = 0 then 0 else u64sub args.limitScanned skipScan

/-- The `(scanStart, scanEnd, matchCount, noresume, err)` result of one
`luaTile38IterateInner` call. -/
structure InnerResult where
  scanStart : Nat
  scanEnd : Nat
  matchCount : Nat
  noresume : Bool
  err : Option IterErr
deriving DecidableEq, Repr

/-- Model of `Server.luaTile38IterateInner`, with the scan abstracted by the
attempt outcome. -/
def iterateInner (args : IterArgs) (att : IterAttempt)
    (skipScan skipMatch : Nat) : InnerResult :=
  match att with
  | .parseErr e => ⟨0, 0, 0, false, some e⟩
  | att =>
    if args.fence then
      ⟨0, 0, 0, args.noresume, some (.other "fence not supported")⟩
    else
      match att with
      | .parseErr e => ⟨0, 0, 0, false, some e⟩
      | .scanErr e => ⟨0, 0, 0, args.noresume, some e⟩
      | .noCol => ⟨0, 0, 0, false, none⟩
      | .run numberIters count err =>
        let cursor := adjCursor args skipScan
        let _ := adjLimitMatched args skipMatch
        let _ := adjLimitScanned args skipScan
        ⟨cursor, max numberIters cursor, count, args.noresume, err⟩

/-- The accumulated `(skipScan, skipMatch)` before attempt `k`
(`skipMatch += matchCount; skipScan += scanEnd - scanStart` after each
attempt, in `uint64` arithmetic; `scanEnd ≥ scanStart` always holds by
construction of the deferred block). -/
def skipsAt (args : IterArgs) (attempts : Nat → IterAttempt) : Nat → Nat × Nat
  | 0 => (0, 0)
  | k + 1 =>
    let (ss, sm) := skipsAt args attempts k
    let r := iterateInner args (attempts k) ss sm
    (u64add ss (r.scanEnd - r.scanStart), u64add sm r.matchCount)

/-- Per-attempt number of items scanned, as accumulated by the loop. -/
def attemptScanned (args : IterArgs) (attempts : Nat → IterAttempt) (k : Nat) : Nat :=
  (iterateInner args (attempts k) (skipsAt args attempts k).1 (skipsAt args attempts k).2).scanEnd -
    (iterateInner args (attempts k) (skipsAt args attempts k).1 (skipsAt args attempts k).2).scanStart

/-- Per-attempt number of items matched, as accumulated by the loop. -/
def attemptMatched (args : IterArgs) (attempts : Nat → IterAttempt) (k : Nat) : Nat :=
  (iterateInner args (attempts k) (skipsAt args attempts k).1 (skipsAt args attempts k).2).matchCount

/-- The cursor attempt `k` passes to its scan. -/
def callCursor (args : IterArgs) (attempts : Nat → IterAttempt) (k : Nat) : Nat :=
  adjCursor args (skipsAt args attempts k).1

/-- The matched limit attempt `k` passes to its scan. -/
def callLimitMatched (args : IterArgs) (attempts : Nat → IterAttempt) (k : Nat) : Nat :=
  adjLimitMatched args (skipsAt args attempts k).2

/-- The scanned limit attempt `k` passes to its scan. -/
def callLimitScanned (args : IterArgs) (attempts : Nat → IterAttempt) (k : Nat) : Nat :=
  adjLimitScanned args (skipsAt args attempts k).1

/-- Model of `Server.luaTile38Iterate`'s retry loop, starting at attempt `k`,
with fuel bounding the number of attempts examined.  The result is
`(err, retries)`: the error returned to `baseIterate` and the number of
`ts.Retry()` calls made; `none` if the loop is still retrying when the
fuel runs out. -/
def iterateLoop (args : IterArgs) (attempts : Nat → IterAttempt) :
    Nat → Nat → Option (Option IterErr × Nat)
  | 0, _ => none
  | fuel + 1, k =>
    let r := iterateInner args (attempts k) (skipsAt args attempts k).1
      (skipsAt args attempts k).2
    if r.noresume = false ∧ r.err = some .interrupted then
      iterateLoop args attempts fuel (k + 1)
    else
      some (r.err, k)

/-! ### Claim C3 -/

theorem skipsAt_fst_eq_sum (args : IterArgs) (attempts : Nat → IterAttempt) :
    ∀ k, (skipsAt args attempts k).1 =
      (Finset.range k).sum (attemptScanned args attempts) % U64 := by
  intro k
  induction k with
  | zero => rfl
  | succ k ih =>
    show u64add (skipsAt args attempts k).1 (attemptScanned args attempts k) = _
    rw [Finset.sum_range_succ, ih]
    unfold u64add
    rw [Nat.mod_add_mod]

theorem skipsAt_snd_eq_sum (args : IterArgs) (attempts : Nat → IterAttempt) :
    ∀ k, (skipsAt args attempts k).2 =
      (Finset.range k).sum (attemptMatched args attempts) % U64 := by
  intro k
  induction k with
  | zero => rfl
  | succ k ih =>
    show u64add (skipsAt args attempts k).2 (attemptMatched args attempts k) = _
    rw [Finset.sum_range_succ, ih]
    unfold u64add
    rw [Nat.mod_add_mod]

theorem iterateInner_noresume (args : IterArgs) (att : IterAttempt)
    (ss sm : Nat) (h : args.noresume = false) :
    (iterateInner args att ss sm).noresume = false := by
  unfold iterateInner
  cases att <;> simp [h] <;> split <;> simp [h]

/-- C3 (amended): the retry loop of a script-driven iterate.  For every
argument list whose parse does not disable resumption
(`noresume = false`) and every sequence of attempt outcomes:

1. whenever the loop terminates, the error it returns is never the
   interrupted error — an interruption is never surfaced to the
   script;
2. the loop returning `(err, r)` means attempts `0 .. r-1` each ended
   interrupted and were each followed by a `ts.Retry()` call, and
   attempt `r` is the first that did not (the inner scan finished
   without interruption, or failed with a different error);
3. attempt `k` re-enters the inner scan with the cursor increased by
   the total number of items scanned by attempts `0 .. k-1` (mod 2^64)
   and with `limit.matched` / `limit.scanned` decreased by the
   accumulated matched / scanned counts — except that a zero limit
   (meaning "no limit") is left at zero rather than decreased. -/
theorem iterate_retry_protocol (args : IterArgs) (attempts : Nat → IterAttempt)
    (fuel : Nat) (err : Option IterErr) (r : Nat)
    (hnores : args.noresume = false)
    (hrun : iterateLoop args attempts fuel 0 = some (err, r)) :
    err ≠ some .interrupted ∧
    (∀ j < r, (iterateInner args (attempts j) (skipsAt args attempts j).1
      (skipsAt args attempts j).2).err = some .interrupted) ∧
    (iterateInner args (attempts r) (skipsAt args attempts r).1
      (skipsAt args attempts r).2).err = err ∧
    (∀ k,
      callCursor args attempts k =
        u64add args.cursor
          ((Finset.range k).sum (attemptScanned args attempts)) ∧
      callLimitMatched args attempts k =
        (if args.limitMatched = 0 then 0
         else u64sub args.limitMatched
          ((Finset.range k).sum (attemptMatched args attempts))) ∧
      callLimitScanned args attempts k =
        (if args.limitScanned = 0 then 0
         else u64sub args.limitScanned
          ((Finset.range k).sum (attemptScanned args attempts)))) := by
  have main : ∀ (fuel k : Nat),
      iterateLoop args attempts fuel k = some (err, r) →
      k ≤ r ∧ err ≠ some .interrupted ∧
      (∀ j, k ≤ j → j < r →
        (iterateInner args (attempts j) (skipsAt args attempts j).1
          (skipsAt args attempts j).2).err = some .interrupted) ∧
      (iterateInner args (attempts r) (skipsAt args attempts r).1
        (skipsAt args attempts r).2).err = err := by
    intro fuel
    induction fuel with
    | zero => intro k h; exact absurd h (by simp [iterateLoop])
    | succ fuel ih =>
      intro k h
      unfold iterateLoop at h
      by_cases hc : (iterateInner args (attempts k) (skipsAt args attempts k).1
          (skipsAt args attempts k).2).noresume = false ∧
          (iterateInner args (attempts k) (skipsAt args attempts k).1
            (skipsAt args attempts k).2).err = some .interrupted
      · rw [if_pos hc] at h
        obtain ⟨hle, herr, hall, hfin⟩ := ih (k + 1) h
        refine ⟨by omega, herr, ?_, hfin⟩
        intro j hj1 hj2
        rcases Nat.eq_or_lt_of_le hj1 with he | hlt
        · rw [← he]
          exact hc.2
        · exact hall j hlt hj2
      · rw [if_neg hc] at h
        injection h with h
        injection h with h1 h2
        subst h2
        have hnr := iterateInner_noresume args (attempts k)
          (skipsAt args attempts k).1 (skipsAt args attempts k).2 hnores
        refine ⟨le_refl k,
          ?_,
          fun j hj1 hj2 => absurd (Nat.lt_of_le_of_lt hj1 hj2) (Nat.lt_irrefl k),
          h1⟩
        intro hint
        rw [← h1] at hint
        exact hc ⟨hnr, hint⟩
  obtain ⟨-, herr, hall, hfin⟩ := main fuel 0 hrun
  refine ⟨herr, fun j hj => hall j (Nat.zero_le j) hj, hfin, ?_⟩
  intro k
  refine ⟨?_, ?_, ?_⟩
  · unfold callCursor adjCursor
    rw [skipsAt_fst_eq_sum]
    unfold u64add U64
    omega
  · unfold callLimitMatched adjLimitMatched
    rw [skipsAt_snd_eq_sum]
    by_cases h0 : args.limitMatched = 0
    · rw [if_pos h0, if_pos h0]
    · rw [if_neg h0, if_neg h0]
      unfold u64sub U64
      omega
  · unfold callLimitScanned adjLimitScanned
    rw [skipsAt_fst_eq_sum]
    by_cases h0 : args.limitScanned = 0
    · rw [if_pos h0, if_pos h0]
    · rw [if_neg h0, if_neg h0]
      unfold u64sub U64
      omega

/-- Witness for C3: arguments `cursor = 0`, `LIMIT 10 20`; the first
attempt scans 5 items, matches 3, and is interrupted; the second
attempt finishes cleanly.  The loop retries once and returns no error,
and the second attempt ran at cursor 5 with limits 7 and 15. -/
theorem iterate_retry_protocol_witness :
    iterateLoop ⟨0, 10, 20, false, false⟩
      (fun k => if k = 0 then .run 5 3 (some .interrupted) else .run 8 2 none)
      3 0 = some (none, 1) ∧
    (none : Option IterErr) ≠ some .interrupted ∧
    callCursor ⟨0, 10, 20, false, false⟩
      (fun k => if k = 0 then .run 5 3 (some .interrupted) else .run 8 2 none) 1 = 5 ∧
    callLimitMatched ⟨0, 10, 20, false, false⟩
      (fun k => if k = 0 then .run 5 3 (some .interrupted) else .run 8 2 none) 1 = 7 ∧
    callLimitScanned ⟨0, 10, 20, false, false⟩
      (fun k => if k = 0 then .run 5 3 (some .interrupted) else .run 8 2 none) 1 = 15 := by
  have hrun : iterateLoop ⟨0, 10, 20, false, false⟩
      (fun k => if k = 0 then .run 5 3 (some .interrupted) else .run 8 2 none)
      3 0 = some (none, 1) := by decide
  have h := iterate_retry_protocol ⟨0, 10, 20, false, false⟩
    (fun k => if k = 0 then .run 5 3 (some .interrupted) else .run 8 2 none)
    3 none 1 rfl hrun
  refine ⟨hrun, h.1, ?_, ?_, ?_⟩
  · rw [(h.2.2.2 1).1]
    decide
  · rw [(h.2.2.2 1).2.1]
    decide
  · rw [(h.2.2.2 1).2.2]
    decide

/-- C3 counterexample to the claim as stated: with a parsed
`limit.matched` of `0` ("no limit") and a first attempt that matched 3
items before being interrupted, the retry re-enters the inner scan with
`limit.matched` still `0` — it is not decreased by the accumulated
matched count (which, in the `uint64` arithmetic the claim implies,
would be `0 - 3 = 2^64 - 3`). -/
theorem iterate_zero_limit_counterexample :
    callLimitMatched ⟨0, 0, 20, false, false⟩
      (fun k => if k = 0 then .run 5 3 (some .interrupted) else .run 8 2 none) 1 = 0 ∧
    u64sub 0 3 = 18446744073709551613 ∧
    (0 : Nat) ≠ 18446744073709551613 := by
  refine ⟨by decide, by decide, by decide⟩

/-! ## `internal/server/follow.go` lines 1218-1330 — nested script calls

`luaTile38Call` first rejects the commands that are never allowed
inside scripts, then dispatches on the outer eval command;
`luaTile38AtomicRO` (the `evalro`/`evalrosha` handler) classifies the
nested command and rejects every write with `errReadOnly` before it
reaches `commandInScript`.

The data store and the command interpreter are abstracted: the store is
a type parameter `σ` and `commandInScript` (together with the deadline
wrapper around it, which the read path may install) is a parameter
`cis : String → σ → (Except String RespErrOrValue) × σ`.  A result of
`.error msg` is the Go `(resp.NullValue(), err)` return; the store
component is threaded to make "the store is unchanged" a statement of
the model.  The `timeout` prefix rewrite (`rewriteTimeoutMsg`) is not
part of the provided sources; the dispatch below keeps its branch as an
opaque failure, which no theorem exercises (a write-command name is
never `"timeout"`). -/

/-- The write-command names of the in-script classifier
(`follow.go` lines 1259-1260 and 1306-1307). -/
def writeCmdsInScript : List String :=
  ["set", "del", "drop", "fset", "flushdb", "expire", "persist", "jset",
   "jdel", "pdel", "rename", "renamenx"]

/-- The read-command names of the in-script classifier
(`follow.go` lines 1269-1270 and 1311-1312). -/
def readCmdsInScript : List String :=
  ["get", "keys", "scan", "nearby", "within", "intersects", "hooks",
   "search", "ttl", "bounds", "server", "info", "type", "jget", "test"]

/-- Commands never allowed inside scripts (`follow.go` lines
1231-1236). -/
def blockedInScript : List String :=
  ["ping", "echo", "auth", "massinsert", "shutdown", "gc",
   "sethook", "pdelhook", "delhook",
   "follow", "readonly", "config", "output", "client",
   "aofshrink",
   "script load", "script exists", "script flush",
   "eval", "evalsha", "evalro", "evalrosha", "evalna", "evalnasha"]

/-- Model of `Server.luaTile38AtomicRO` (`follow.go` lines 1301-1330): write
names fail with `read only` before the command executes; read names are
gated by the catching-up check and then run `commandInScript`; anything
else is unsupported. -/
def luaTile38AtomicRO {σ : Type} (followHost : Bool) (fcuponce : Bool)
    (cis : String → σ → (Except String Unit) × σ) (cmd : String) (st : σ) :
    (Except String Unit) × σ :=
  if writeCmdsInScript.contains cmd then
    (.error "read only", st)
  else if readCmdsInScript.contains cmd then
    if followHost ∧ ¬ fcuponce then
      (.error "catching up to leader", st)
    else
      cis cmd st
  else
    (.error "command not supported in scripts", st)

/-- Model of `Server.luaTile38Call` (`follow.go` lines 1218-1250) restricted to
the two read-only eval modes; the `timeout` rewrite and the other two
modes are outside the claims over this function.  The blocked-command
check comes first, exactly as in the source. -/
def luaTile38CallRO {σ : Type} (evalcmd : String) (followHost : Bool)
    (fcuponce : Bool) (cis : String → σ → (Except String Unit) × σ)
    (cmd : String) (st : σ) : (Except String Unit) × σ :=
  if blockedInScript.contains cmd then
    (.error "command not supported in scripts", st)
  else if evalcmd = "evalro" ∨ evalcmd = "evalrosha" then
    luaTile38AtomicRO followHost fcuponce cis cmd st
  else
    (.error "command not supported in scripts", st)

/-! ### Claim C6 -/

/-- C6: in `EVALRO`/`EVALROSHA` mode, every nested call naming one of
the twelve write commands returns the `read only` error and leaves the
store exactly as it was: the dispatch returns before `commandInScript`
is ever consulted, so the result does not depend on `cis` at all. -/
theorem evalro_write_rejected {σ : Type} (evalcmd : String)
    (followHost fcuponce : Bool)
    (cis : String → σ → (Except String Unit) × σ) (cmd : String) (st : σ)
    (hcmd : writeCmdsInScript.contains cmd = true)
    (hev : evalcmd = "evalro" ∨ evalcmd = "evalrosha") :
    luaTile38CallRO evalcmd followHost fcuponce cis cmd st =
      (.error "read only", st) := by
  have hnb : blockedInScript.contains cmd = false := by
    have h12 : cmd = "set" ∨ cmd = "del" ∨ cmd = "drop" ∨ cmd = "fset" ∨
        cmd = "flushdb" ∨ cmd = "expire" ∨ cmd = "persist" ∨ cmd = "jset" ∨
        cmd = "jdel" ∨ cmd = "pdel" ∨ cmd = "rename" ∨ cmd = "renamenx" := by
      simpa [writeCmdsInScript] using hcmd
    rcases h12 with h | h | h | h | h | h | h | h | h | h | h | h <;>
      subst h <;> decide
  unfold luaTile38CallRO
  rw [hnb]
  rcases hev with h | h <;> subst h
  · show luaTile38AtomicRO followHost fcuponce cis cmd st = _
    unfold luaTile38AtomicRO
    rw [hcmd]
    rfl
  · show luaTile38AtomicRO followHost fcuponce cis cmd st = _
    unfold luaTile38AtomicRO
    rw [hcmd]
    rfl

/-- Witness for C6: a nested `set` under `evalro`, against a store
modelled as a counter whose `cis` would increment it, returns the
read-only error and the unchanged store. -/
theorem evalro_write_rejected_witness :
    luaTile38CallRO "evalro" false true
      (fun _ (n : Nat) => (.ok (), n + 1)) "set" 41 =
      (.error "read only", 41) :=
  evalro_write_rejected "evalro" false true _ "set" 41 (by decide) (Or.inl rfl)

/-! ## A float value that may be infinite or NaN

`F` models an IEEE `float64` as an exact rational, `+Inf`, `-Inf` or
`NaN`.  Finite arithmetic is idealised as exact; the only non-finite
operation any claim needs is division by zero, which follows IEEE:
`a / 0 = +Inf` for `a > 0`, `-Inf` for `a < 0`, `NaN` for `a = 0`. -/
inductive F where
  | fin (q : ℚ)
  | pinf
  | ninf
  | nan
deriving DecidableEq, Repr

/-- Division of two finite `float64` values, with the IEEE zero-divisor
behaviour. -/
def divF (a b : ℚ) : F :=
  if b = 0 then
    if a > 0 then .pinf else if a < 0 then .ninf else .nan
  else
    .fin (a / b)

/-- Model of `math.Erf` lifted to `F`.  On finite values it is the given
`erfQ : ℚ → ℚ` (the Go routine is a function on representable values);
`Erf(+Inf) = 1`, `Erf(-Inf) = -1` and `Erf(NaN) = NaN` are exact parts
of its contract. -/
def erfF (erfQ : ℚ → ℚ) : F → F
  | .fin q => .fin (erfQ q)
  | .pinf => .fin 1
  | .ninf => .fin (-1)
  | .nan => .nan

/-- The map given by 0.5 * (1 + x) on `F` (a positive finite scale keeps infinities
and NaN). -/
def halfOnePlusF : F → F
  | .fin q => .fin ((1 + q) / 2)
  | .pinf => .pinf
  | .ninf => .ninf
  | .nan => .nan

/-! ## `internal/server/follow.go` lines 822-871 — `ConvertToRESP`

Lua values are modelled after gopher-lua's representation: a table is
an array part plus a hash part.  `LTable.Len()` is the array-part
length, and `LTable.ForEach` visits the array part (as pairs
`(i+1, v)`) and then the hash part.  Go iterates the hash parts in
unspecified map order; the model fixes a list order — no theorem below
distinguishes orders of two hash entries.  `LValue.String()`
(`lvString`) is exact on strings; on numbers it is a decimal rendering
and on tables it includes the Go pointer address, so those cases are an
uninterpreted constant here and no theorem relies on them. -/

/-- A Lua value (`lua.LValue`). -/
inductive LV where
  | lnil
  | lbool (b : Bool)
  | lnum (x : F)
  | lstr (s : String)
  | ltable (arr : List LV) (hash : List (LV × LV))

/-- A RESP value (`resp.Value`). -/
inductive RESPV where
  | null
  | integer (i : Int)
  | bulk (s : String)
  | simple (s : String)
  | errv (s : String)
  | float (x : F)
  | array (vs : List RESPV)

/-- Model of `lua.LValue.String()`; exact only for strings (see the section
comment). -/
def lvString : LV → String
  | .lnil => "nil"
  | .lbool true => "true"
  | .lbool false => "false"
  | .lnum _ => "number"
  | .lstr s => s
  | .ltable _ _ => "table"

/-- The `specialValues` accumulated by the map-branch callback of
`ConvertToRESP`: a simple string for each `"ok"` key, an error for each
`"err"` key, in table order. -/
def specialValuesOf : List (LV × LV) → List RESPV
  | [] => []
  | (k, v) :: ps =>
    match k with
    | .lstr s =>
      if s = "ok" then .simple (lvString v) :: specialValuesOf ps
      else if s = "err" then .errv (lvString v) :: specialValuesOf ps
      else specialValuesOf ps
    | _ => specialValuesOf ps

mutual

/-- Model of `ConvertToRESP` (`follow.go` lines 822-871).  `nil → null`;
`false → null`, `true → 1`; a NaN or infinite number stays a float,
a finite number becomes `int(math.Floor(x))`; a string becomes a bulk
string.  A table with a non-empty array part ("list") converts every
visited value — array values, then hash values — recursively into one
flat array.  A table with an empty array part ("map") builds
`[key, value]` pair arrays for all entries plus the special values for
`"ok"`/`"err"` keys, and collapses to the single special value when the
table has exactly one entry and it is special. -/
def convertToRESP : LV → RESPV
  | .lnil => .null
  | .lbool b => if b then .integer 1 else .null
  | .lnum (.fin q) => .integer (Int.floor q)
  | .lnum .pinf => .float .pinf
  | .lnum .ninf => .float .ninf
  | .lnum .nan => .float .nan
  | .lstr s => .bulk s
  | .ltable arr hash =>
    if arr.length ≠ 0 then
      .array (convertValues arr ++ convertHashValues hash)
    else
      if hash.length = 1 ∧ (specialValuesOf hash).length = 1 then
        (specialValuesOf hash).headD .null
      else
        .array (convertPairs hash)

/-- The list-branch callback over the array part. -/
def convertValues : List LV → List RESPV
  | [] => []
  | v :: vs => convertToRESP v :: convertValues vs

/-- The list-branch callback over the hash part (values only). -/
def convertHashValues : List (LV × LV) → List RESPV
  | [] => []
  | (_, v) :: ps => convertToRESP v :: convertHashValues ps

/-- The map-branch `values` list: a `[key, value]` array per entry. -/
def convertPairs : List (LV × LV) → List RESPV
  | [] => []
  | (k, v) :: ps => .array [convertToRESP k, convertToRESP v] :: convertPairs ps

end

/-! ### Claim C7 -/

theorem convertPairs_length : ∀ ps : List (LV × LV),
    (convertPairs ps).length = ps.length := by
  intro ps
  induction ps with
  | nil => rfl
  | cons p ps ih =>
    obtain ⟨k, v⟩ := p
    unfold convertPairs
    simpa using ih

/-- C7 (amended): conversion of a Lua table to RESP.

1. A table holding exactly the single string key `"ok"` (resp. `"err"`)
   converts to a simple string (resp. an error) carrying the value's
   string form.
2. A table with a *non-empty array part* converts to the flat array of
   all its values — the array-part values followed by the hash-part
   values, each converted recursively — even when it also has hash
   keys.
3. A table with an empty array part that does not consist of exactly
   one `"ok"`/`"err"` entry converts to an array of `[key, value]`
   pairs. -/
theorem convertToRESP_table_cases (s : String) (v : LV) (arr : List LV)
    (hash : List (LV × LV)) (harr : arr ≠ [])
    (hns : ¬ (hash.length = 1 ∧ (specialValuesOf hash).length = 1)) :
    convertToRESP (.ltable [] [(.lstr "ok", .lstr s)]) = .simple s ∧
    convertToRESP (.ltable [] [(.lstr "err", .lstr s)]) = .errv s ∧
    convertToRESP (.ltable [] [(.lstr "ok", v)]) = .simple (lvString v) ∧
    convertToRESP (.ltable arr hash) =
      .array (convertValues arr ++ convertHashValues hash) ∧
    convertToRESP (.ltable [] hash) = .array (convertPairs hash) := by
  refine ⟨rfl, rfl, rfl, ?_, ?_⟩
  · unfold convertToRESP
    rw [if_pos]
    intro h
    exact harr (List.length_eq_zero.mp h)
  · unfold convertToRESP
    rw [if_neg (by simp), if_neg hns]

/-- Witness for C7: a list-branch table `{1 = "x", foo = "b"}`, the map
`{foo = "b"}`, and the single-key table `{ok = "fine"}`. -/
theorem convertToRESP_table_cases_witness :
    convertToRESP (.ltable [.lstr "x"] [(.lstr "foo", .lstr "b")]) =
      .array [.bulk "x", .bulk "b"] ∧
    convertToRESP (.ltable [] [(.lstr "foo", .lstr "b")]) =
      .array [.array [.bulk "foo", .bulk "b"]] ∧
    convertToRESP (.ltable [] [(.lstr "ok", .lstr "fine")]) = .simple "fine" := by
  have h := convertToRESP_table_cases "fine" (.lstr "fine") [.lstr "x"]
    [(.lstr "foo", .lstr "b")] (by simp)
    (by intro hc; simpa [specialValuesOf] using hc.2)
  refine ⟨?_, ?_, h.1⟩
  · have h4 := h.2.2.2.1
    rw [h4]
    rfl
  · have h5 := h.2.2.2.2
    rw [h5]
    rfl

/-- C7 counterexample to the claim as stated: the table
`{1 = "a", foo = "b"}` has keys that are neither only `ok`/`err` nor
integer-contiguous from 1, so the claim files it under "all other
tables" and demands the pair form
`[[1, "a"], ["foo", "b"]]`; the code's list branch (taken because the
array part is non-empty) produces the flat value array
`["a", "b"]` instead. -/
theorem convertToRESP_mixed_table_counterexample :
    convertToRESP (.ltable [.lstr "a"] [(.lstr "foo", .lstr "b")]) =
      .array [.bulk "a", .bulk "b"] ∧
    RESPV.array [.bulk "a", .bulk "b"] ≠
      .array [.array [.integer 1, .bulk "a"], .array [.bulk "foo", .bulk "b"]] := by
  constructor
  · rfl
  · intro h
    injection h with h
    injection h with h1 h2
    exact absurd h1 (by intro h3; cases h3)

/-! ## `internal/server/statsarray.go` — the `statsArray` helper

Finite `float64` arithmetic is idealised as exact rational arithmetic.
`math.Sqrt` is the parameter `sqrtQ`, `math.Erf` the parameter `erfQ`,
and the constant `math.Sqrt2` the parameter `sqrt2Q` (positive); the
scalar `CDFOf`, where claim C9 turns on the zero-divisor case, goes
through `divF`/`erfF` with exact IEEE infinities.  The in-place `CDF`
is modelled with plain rational division (whose `x / 0 = 0` convention
is *not* IEEE): no theorem below reads the elements it writes, only the
`summary` field it leaves behind. -/

/-- The cached `summary` struct. -/
structure SummaryS where
  mean : ℚ
  standardDeviation : ℚ
  min : ℚ
  max : ℚ
deriving DecidableEq, Repr

/-- Model of `statsArray`: the elements and the lazily cached summary. -/
structure StatsArray where
  xs : List ℚ
  summary : Option SummaryS
deriving DecidableEq, Repr

/-- One iteration of the `summarize` loop (`statsarray.go` lines
72-84): Welford's update of `(mean, m2)` followed by the
`if x < min ... else if x > max ...` update, over the state
`(i, mean, m2, min, max)`. -/
def summarizeStep (st : Nat × ℚ × ℚ × ℚ × ℚ) (x : ℚ) : Nat × ℚ × ℚ × ℚ × ℚ :=
  match st with
  | (i, mean, m2, mn, mx) =>
    let n : ℚ := ((i + 1 : Nat) : ℚ)
    let delta := x - mean
    let mean2 := mean + delta / n
    let delta2 := x - mean2
    (i + 1, mean2, m2 + delta * delta2,
      if x < mn then x else mn,
      if x < mn then mx else if x > mx then x else mx)

/-- The summary computed from the elements (`statsarray.go` lines
60-91); an empty array yields the zero summary. -/
def summarizeCompute (sqrtQ : ℚ → ℚ) (xs : List ℚ) : SummaryS :=
  match xs with
  | [] => ⟨0, 0, 0, 0⟩
  | x0 :: _ =>
    match xs.foldl summarizeStep (0, 0, 0, x0, x0) with
    | (_, mean, m2, mn, mx) =>
      ⟨mean, sqrtQ (m2 / (xs.length : ℚ)), mn, mx⟩

/-- Model of `statsArray.summarize`: return the cached summary if present,
otherwise compute and cache it. -/
def summarize (sqrtQ : ℚ → ℚ) (a : StatsArray) : StatsArray × SummaryS :=
  match a.summary with
  | some s => (a, s)
  | none =>
    let s := summarizeCompute sqrtQ a.xs
    ({ a with summary := some s }, s)

/-- Model of `statsArray.Mean`. -/
def meanS (sqrtQ : ℚ → ℚ) (a : StatsArray) : StatsArray × ℚ :=
  match summarize sqrtQ a with
  | (a1, s) => (a1, s.mean)

/-- Model of `statsArray.StandardDeviation`. -/
def stdDevS (sqrtQ : ℚ → ℚ) (a : StatsArray) : StatsArray × ℚ :=
  match summarize sqrtQ a with
  | (a1, s) => (a1, s.standardDeviation)

/-- Model of `statsArray.Min`. -/
def minS (sqrtQ : ℚ → ℚ) (a : StatsArray) : StatsArray × ℚ :=
  match summarize sqrtQ a with
  | (a1, s) => (a1, s.min)

/-- Model of `statsArray.Max`. -/
def maxS (sqrtQ : ℚ → ℚ) (a : StatsArray) : StatsArray × ℚ :=
  match summarize sqrtQ a with
  | (a1, s) => (a1, s.max)

/-- Model of `statsArray.Append` (`statsarray.go` lines 40-42): appends to `xs`
and touches nothing else. -/
def appendS (a : StatsArray) (x : ℚ) : StatsArray :=
  { a with xs := a.xs ++ [x] }

/-- Model of `statsArray.Clamp` (`statsarray.go` lines 144-153): two independent
`if`s against the original element, so an element above `max` ends at
`max` even if it was also below `min`. -/
def clampS (a : StatsArray) (lo hi : ℚ) : StatsArray :=
  { a with xs := a.xs.map fun x => if x > hi then hi else if x < lo then lo else x }

/-- Model of `statsArray.applyScalar` (`statsarray.go` lines 203-209). -/
def applyScalarS (a : StatsArray) (b : ℚ) (f : ℚ → ℚ → ℚ) : StatsArray :=
  { a with xs := a.xs.map fun x => f x b }

/-- Model of `statsArray.applyArray` (`statsarray.go` lines 211-220): pairwise
application truncated to the shorter length. -/
def applyArrayS (a b : StatsArray) (f : ℚ → ℚ → ℚ) : StatsArray :=
  { a with xs := List.zipWith f a.xs b.xs }

/-- Model of `statsArray.CDF` (`statsarray.go` lines 93-98), in place.  `Mean`
and `StandardDeviation` run (and cache) `summarize` first; the elements
are then overwritten with the idealised finite formula (see the section
comment). -/
def cdfInPlace (erfQ sqrtQ : ℚ → ℚ) (sqrt2Q : ℚ) (a : StatsArray) : StatsArray :=
  match summarize sqrtQ a with
  | (a1, s) =>
    { a1 with xs := a1.xs.map fun x =>
        (1 + erfQ ((x - s.mean) / (s.standardDeviation * sqrt2Q))) / 2 }

/-- Model of `statsArray.CDFOf` (`statsarray.go` lines 100-103): the scalar
query `0.5 * (1 + math.Erf((x-μ)/(σ*math.Sqrt2)))`, with the zero
divisor case modelled exactly as IEEE `float64` behaves. -/
def cdfOf (erfQ sqrtQ : ℚ → ℚ) (sqrt2Q : ℚ) (a : StatsArray) (x : ℚ) :
    StatsArray × F :=
  match summarize sqrtQ a with
  | (a1, s) =>
    (a1, halfOnePlusF (erfF erfQ (divF (x - s.mean) (s.standardDeviation * sqrt2Q))))

/-- The identity on ℚ, used to instantiate the `sqrtQ`/`erfQ`
parameters at concrete inputs where only exact values (such as
`sqrt 0 = 0` or `erf` of an infinite argument) matter. -/
def idQ : ℚ → ℚ := fun q => q

/-! ### Claim C8 -/

/-- C8 (amended): no mutation of a `statsArray` invalidates the cached
summary.  `Append`, `Clamp`, the element-wise scalar and array
operations all leave the `summary` field exactly as it was; the
in-place `cdf` leaves behind the summary of the *pre-mutation*
elements (it computes and caches it before overwriting them); and
whenever a summary is cached, `Mean`, `StandardDeviation`, `Min` and
`Max` return the cached values without looking at the (possibly
mutated) elements. -/
theorem statsarray_cache_survives_mutation (sqrtQ erfQ : ℚ → ℚ) (sqrt2Q : ℚ)
    (a b : StatsArray) (x lo hi c : ℚ) (f : ℚ → ℚ → ℚ) (s : SummaryS) :
    (appendS a x).summary = a.summary ∧
    (clampS a lo hi).summary = a.summary ∧
    (applyScalarS a c f).summary = a.summary ∧
    (applyArrayS a b f).summary = a.summary ∧
    (cdfInPlace erfQ sqrtQ sqrt2Q a).summary = some (summarize sqrtQ a).2 ∧
    (a.summary = some s →
      meanS sqrtQ a = (a, s.mean) ∧ stdDevS sqrtQ a = (a, s.standardDeviation) ∧
      minS sqrtQ a = (a, s.min) ∧ maxS sqrtQ a = (a, s.max)) := by
  refine ⟨rfl, rfl, rfl, rfl, ?_, ?_⟩
  · cases h : a.summary <;> simp [cdfInPlace, summarize, h]
  · intro h
    refine ⟨?_, ?_, ?_, ?_⟩ <;> simp [meanS, stdDevS, minS, maxS, summarize, h]

/-- Witness for C8: an array whose cache holds a (deliberately
inconsistent) summary `⟨9, 9, 9, 9⟩` over the single element `2`;
`Append` keeps the cache and `Mean` reports the cached `9`. -/
theorem statsarray_cache_survives_mutation_witness :
    (appendS ⟨[2], some ⟨9, 9, 9, 9⟩⟩ 3).summary = some ⟨9, 9, 9, 9⟩ ∧
    meanS idQ ⟨[2], some ⟨9, 9, 9, 9⟩⟩ = (⟨[2], some ⟨9, 9, 9, 9⟩⟩, 9) := by
  have h := statsarray_cache_survives_mutation idQ idQ 2
    ⟨[2], some ⟨9, 9, 9, 9⟩⟩ ⟨[], none⟩ 3 0 0 0 (fun x _ => x) ⟨9, 9, 9, 9⟩
  exact ⟨h.1, (h.2.2.2.2.2 rfl).1⟩

/-- The elements the array `⟨[1], cache⟩` holds after a `Mean` call
(which caches the summary of `[1]`). -/
def cacheDemo1 : StatsArray := (meanS idQ ⟨[1], none⟩).1

/-- The same array then mutated by an append of 3. -/
def cacheDemo2 : StatsArray := appendS cacheDemo1 3

/-- The arithmetic mean of a list of rationals. -/
def arithMean (xs : List ℚ) : ℚ := xs.sum / (xs.length : ℚ)

/-- C8 counterexample to the claim as stated: after `Mean` has cached
the summary of `[1]`, `Append 3` mutates the elements to `[1, 3]` but
does not invalidate the cache, so the next `Mean` still returns the
stale `1` instead of the arithmetic mean `2` of the mutated
contents. -/
theorem statsarray_stale_cache_counterexample :
    cacheDemo2.xs = [1, 3] ∧
    (meanS idQ cacheDemo2).2 = 1 ∧
    arithMean cacheDemo2.xs = 2 ∧
    (1 : ℚ) ≠ 2 := by
  have h1 : cacheDemo1 = ⟨[1], some ⟨1, 0, 1, 1⟩⟩ := by
    unfold cacheDemo1 meanS summarize summarizeCompute
    norm_num [summarizeStep, idQ]
  have h2 : cacheDemo2 = ⟨[1, 3], some ⟨1, 0, 1, 1⟩⟩ := by
    unfold cacheDemo2
    rw [h1]
    rfl
  rw [h2]
  refine ⟨rfl, rfl, ?_, by norm_num⟩
  unfold arithMean
  norm_num

/-! ### Claim C9 -/

/-- C9 (amended): the scalar `cdf(x)` of a `statsArray` equals
`0.5 * (1 + erf((x-μ)/(σ*√2)))` whenever the computed population
standard deviation `σ` is positive; `σ`, being a square root, is never
negative, and when `σ = 0` the division by zero makes the result `1`
for `x > μ`, `0` for `x < μ` and NaN for `x = μ` — the code has no
`σ ≤ 0` branch returning `0`. -/
theorem cdfOf_formula (erfQ sqrtQ : ℚ → ℚ) (sqrt2Q : ℚ) (a : StatsArray) (x : ℚ) :
    (0 < (summarize sqrtQ a).2.standardDeviation → 0 < sqrt2Q →
      (cdfOf erfQ sqrtQ sqrt2Q a x).2 =
        .fin ((1 + erfQ ((x - (summarize sqrtQ a).2.mean) /
          ((summarize sqrtQ a).2.standardDeviation * sqrt2Q))) / 2)) ∧
    ((summarize sqrtQ a).2.standardDeviation = 0 →
      (cdfOf erfQ sqrtQ sqrt2Q a x).2 =
        (if x > (summarize sqrtQ a).2.mean then F.fin 1
         else if x < (summarize sqrtQ a).2.mean then F.fin 0
         else F.nan)) := by
  constructor
  · intro hσ hs2
    show halfOnePlusF (erfF erfQ (divF (x - (summarize sqrtQ a).2.mean)
      ((summarize sqrtQ a).2.standardDeviation * sqrt2Q))) = _
    unfold divF
    rw [if_neg (ne_of_gt (mul_pos hσ hs2))]
    rfl
  · intro hσ
    show halfOnePlusF (erfF erfQ (divF (x - (summarize sqrtQ a).2.mean)
      ((summarize sqrtQ a).2.standardDeviation * sqrt2Q))) = _
    rw [hσ, zero_mul]
    unfold divF
    rw [if_pos rfl]
    by_cases hgt : x - (summarize sqrtQ a).2.mean > 0
    · rw [if_pos hgt, if_pos (sub_pos.mp hgt)]
      show F.fin ((1 + 1) / 2) = F.fin 1
      norm_num
    · rw [if_neg hgt, if_neg (fun hc => hgt (sub_pos.mpr hc))]
      by_cases hlt : x - (summarize sqrtQ a).2.mean < 0
      · rw [if_pos hlt, if_pos (sub_neg.mp hlt)]
        show F.fin ((1 + -1) / 2) = F.fin 0
        norm_num
      · rw [if_neg hlt, if_neg (fun hc => hlt (sub_neg.mpr hc))]
        rfl

/-- Witness for C9 on the array `[0, 2]` (population mean `1`,
`m2 = 2`, so with `sqrtQ = id` the standard deviation is `1 > 0`) at
`x = 3` with `sqrt2Q = 2` and `erfQ = id`: the formula gives
`0.5 * (1 + (3-1)/(1*2)) = 1`. -/
theorem cdfOf_formula_witness :
    0 < (summarize idQ ⟨[0, 2], none⟩).2.standardDeviation ∧
    (0 : ℚ) < 2 ∧
    (cdfOf idQ idQ 2 ⟨[0, 2], none⟩ 3).2 = .fin 1 := by
  have hs : (summarize idQ ⟨[0, 2], none⟩).2 = ⟨1, 1, 0, 2⟩ := by
    unfold summarize summarizeCompute
    norm_num [summarizeStep, idQ]
  have hσ : 0 < (summarize idQ ⟨[0, 2], none⟩).2.standardDeviation := by
    rw [hs]
    norm_num
  refine ⟨hσ, by norm_num, ?_⟩
  rw [(cdfOf_formula idQ idQ 2 ⟨[0, 2], none⟩ 3).1 hσ (by norm_num), hs]
  show F.fin ((1 + idQ ((3 - 1) / (1 * 2))) / 2) = F.fin 1
  norm_num [idQ]

/-- C9 counterexample to the claim as stated: on the singleton array
`[5]` the population standard deviation is `0` (`σ ≤ 0`), yet
`cdf(7)` is `1`, not the `0` the claim demands: the code divides
`7 - 5 = 2` by the zero `σ·√2`, giving `+Inf`, and
`0.5 * (1 + Erf(+Inf)) = 1`. -/
theorem cdfOf_sigma_zero_counterexample :
    (summarize idQ ⟨[5], none⟩).2.standardDeviation = 0 ∧
    (cdfOf idQ idQ 2 ⟨[5], none⟩ 7).2 = .fin 1 ∧
    F.fin 1 ≠ F.fin 0 := by
  have hs : (summarize idQ ⟨[5], none⟩).2 = ⟨5, 0, 5, 5⟩ := by
    unfold summarize summarizeCompute
    norm_num [summarizeStep, idQ]
  refine ⟨by rw [hs], ?_, by simp⟩
  show halfOnePlusF (erfF idQ (divF (7 - (summarize idQ ⟨[5], none⟩).2.mean)
    ((summarize idQ ⟨[5], none⟩).2.standardDeviation * 2))) = .fin 1
  rw [hs]
  show halfOnePlusF (erfF idQ (divF (7 - 5) (0 * 2))) = .fin 1
  norm_num [divF, erfF, halfOnePlusF]

end Tile38
